import Mathlib

/-!
Verification development for the SIENNA golden-test-vector generator
(`sienna_test_gen_script.py`).

The script is shallowly embedded here:

* The float codec (`float_to_hex` / `hex_to_float`) is modelled at the level
  of 32-bit IEEE-754 bit patterns, represented as natural numbers below
  `2 ^ 32`.  `struct.pack(">f", x)` of a float32-valued `x` is exactly the
  big-endian byte decomposition of the bit pattern, and `struct.unpack` its
  inverse, so the codec is pure bit manipulation and this embedding is exact.
* The numeric pipeline stages (matmul, activation, max-pool, dropout) operate
  here on matrices of rational numbers (`List (List Rat)`).  The operations
  exercised by the verified properties are comparisons, maxima, selection and
  zero padding, which float32 performs exactly, so the rational model is
  faithful for them; float rounding of `matmul`/`sigmoid`/`tanh` values is
  abstracted (the transcendental branches take the element function as an
  explicit parameter).
* The IEEE-754 behaviour of the one place where non-finite values genuinely
  arise (division by `1 - p` in training-mode dropout with `p = 1`) is
  modelled by a dedicated value type `F32V` with NaN and infinities.
* `numpy.random` is modelled as an abstract generator state (`Nat`) threaded
  explicitly, with the seeding function and the individual draw functions
  taken as parameters; `np.random.seed` replaces the current state by
  `seedFn seed`.
* Fallible operations (`np.zeros` on negative dimensions, `np.max` on an
  empty slice, `bytes.fromhex` / `struct.unpack` on malformed input, integer
  division by a zero stride) return `Except String`.
-/

namespace Sienna

/-! ## Float codec (`float_to_hex`, `hex_to_float`)

A float32 value is represented by its bit pattern, a natural number `< 2^32`.
-/

/-- The sixteen lowercase hexadecimal digit characters, in value order.
Python `f"{b:02x}"` draws its digits from this alphabet. -/
def hexChars : List Char := "0123456789abcdef".toList

/-- Lowercase hex digit of a nibble value. -/
def hexDigit (n : Nat) : Char := hexChars.getD n '0'

/-- Big-endian byte decomposition performed by `struct.pack(">f", f)` on a
float32 whose bit pattern is `bits`: four bytes, most significant first. -/
def packF32 (bits : Nat) : List Nat :=
  [bits / 2 ^ 24 % 256, bits / 2 ^ 16 % 256, bits / 2 ^ 8 % 256, bits % 256]

/-- Two lowercase hex characters of one byte, as produced by `f"{b:02x}"`
for `b < 256`. -/
def byteHex (b : Nat) : List Char := [hexDigit (b / 16), hexDigit (b % 16)]

/-- Python `float_to_hex`: `"".join(f"{b:02x}" for b in struct.pack(">f", f))`,
the 8-character lowercase big-endian hex string of the bit pattern. -/
def float_to_hex (bits : Nat) : String :=
  String.mk (((packF32 bits).map byteHex).flatten)

/-- Value of a hex digit character, upper or lower case (as accepted by
`bytes.fromhex`); `none` for a non-hex character. -/
def hexDigitVal (c : Char) : Option Nat :=
  if '0' ≤ c ∧ c ≤ '9' then some (c.toNat - 48)
  else if 'a' ≤ c ∧ c ≤ 'f' then some (c.toNat - 87)
  else if 'A' ≤ c ∧ c ≤ 'F' then some (c.toNat - 55)
  else none

/-- ASCII whitespace, which `bytes.fromhex` ignores between bytes. -/
def isSpaceChar (c : Char) : Bool :=
  c = ' ' ∨ c = '\t' ∨ c = '\n' ∨ c = '\r' ∨ c = '\x0b' ∨ c = '\x0c'

/-- Python `bytes.fromhex`: ASCII whitespace is skipped between bytes; each
byte is two consecutive hex digits; anything else raises `ValueError`
(modelled as `Except.error`). -/
def fromhex : List Char → Except String (List Nat)
  | [] => .ok []
  | c :: cs =>
    if isSpaceChar c then fromhex cs
    else
      match cs with
      | [] => .error "ValueError: non-hexadecimal number found in fromhex"
      | d :: ds =>
        match hexDigitVal c, hexDigitVal d with
        | some hi, some lo => (fromhex ds).map (fun bs => (hi * 16 + lo) :: bs)
        | _, _ => .error "ValueError: non-hexadecimal number found in fromhex"

/-- Big-endian reassembly performed by `struct.unpack(">f", bytes)`. -/
def unpackF32 (bs : List Nat) : Nat :=
  bs.foldl (fun acc b => acc * 256 + b) 0

/-- Python `hex_to_float`: `struct.unpack(">f", bytes.fromhex(hex_str))[0]`.
`struct.unpack` with format `">f"` demands exactly 4 bytes (else
`struct.error`); the result is the float32 with the denoted bit pattern. -/
def hex_to_float (s : String) : Except String Nat := do
  let bs ← fromhex s.toList
  if bs.length = 4 then .ok (unpackF32 bs)
  else .error "struct.error: unpack requires a buffer of 4 bytes"

end Sienna

namespace Sienna

theorem hexDigitVal_hexDigit : ∀ n : Fin 16, hexDigitVal (hexDigit n.1) = some n.1 := by
  decide

theorem isSpaceChar_hexDigit : ∀ n : Fin 16, isSpaceChar (hexDigit n.1) = false := by
  decide

theorem hexDigit_mem_hexChars : ∀ n : Fin 16, hexDigit n.1 ∈ hexChars := by
  decide

/-- One step of `fromhex` over a pair of in-range digit characters. -/
theorem fromhex_cons_pair (h l : Nat) (hh : h < 16) (hl : l < 16) (rest : List Char) :
    fromhex (hexDigit h :: hexDigit l :: rest) =
      (fromhex rest).map (fun bs => (h * 16 + l) :: bs) := by
  have h1 := isSpaceChar_hexDigit ⟨h, hh⟩
  have h2 := hexDigitVal_hexDigit ⟨h, hh⟩
  have h3 := hexDigitVal_hexDigit ⟨l, hl⟩
  simp only [fromhex, h1, Bool.false_eq_true, if_false, h2, h3]

/-- Unfolding lemma for `hex_to_float`, making the monadic bind explicit. -/
theorem hex_to_float_eq (s : String) :
    hex_to_float s =
      match fromhex s.toList with
      | .error e => .error e
      | .ok bs =>
        if bs.length = 4 then .ok (unpackF32 bs)
        else .error "struct.error: unpack requires a buffer of 4 bytes" := by
  unfold hex_to_float
  cases fromhex s.toList <;> rfl

theorem fromhex_nil : fromhex [] = .ok [] := rfl

theorem hex_to_float_of_fromhex_error {s : String} {e : String}
    (h : fromhex s.toList = .error e) : hex_to_float s = .error e := by
  rw [hex_to_float_eq, h]

theorem hex_to_float_of_fromhex_ok {s : String} {bs : List Nat}
    (h : fromhex s.toList = .ok bs) (h4 : bs.length = 4) :
    hex_to_float s = .ok (unpackF32 bs) := by
  rw [hex_to_float_eq, h]
  show (if bs.length = 4 then Except.ok (unpackF32 bs)
    else Except.error "struct.error: unpack requires a buffer of 4 bytes") = _
  rw [if_pos h4]

theorem hex_to_float_of_fromhex_ok_ne {s : String} {bs : List Nat}
    (h : fromhex s.toList = .ok bs) (h4 : bs.length ≠ 4) :
    hex_to_float s = .error "struct.error: unpack requires a buffer of 4 bytes" := by
  rw [hex_to_float_eq, h]
  show (if bs.length = 4 then Except.ok (unpackF32 bs)
    else Except.error "struct.error: unpack requires a buffer of 4 bytes") = _
  rw [if_neg h4]

theorem float_to_hex_toList (bits : Nat) :
    (float_to_hex bits).toList =
      [hexDigit (bits / 2 ^ 24 % 256 / 16), hexDigit (bits / 2 ^ 24 % 256 % 16),
       hexDigit (bits / 2 ^ 16 % 256 / 16), hexDigit (bits / 2 ^ 16 % 256 % 16),
       hexDigit (bits / 2 ^ 8 % 256 / 16), hexDigit (bits / 2 ^ 8 % 256 % 16),
       hexDigit (bits % 256 / 16), hexDigit (bits % 256 % 16)] := by
  rfl

/-- C1: round-trip law of the float codec.  For every 32-bit pattern `bits`
(this includes `0.0`, `-0.0`, all NaN patterns and `+Infinity`),
`hex_to_float (float_to_hex bits)` recovers `bits` exactly, and
`float_to_hex bits` is exactly 8 characters, all lowercase hex digits. -/
theorem C1_float_codec_roundtrip (bits : Nat) (hb : bits < 2 ^ 32) :
    hex_to_float (float_to_hex bits) = .ok bits ∧
      (float_to_hex bits).length = 8 ∧
      ∀ c ∈ (float_to_hex bits).toList, c ∈ hexChars := by
  have hd : ∀ x : Nat, x % 256 / 16 < 16 := fun x => by omega
  have hm : ∀ x : Nat, x % 256 % 16 < 16 := fun x => by omega
  refine ⟨?_, ?_, ?_⟩
  · show (do
      let bs ← fromhex (float_to_hex bits).toList
      if bs.length = 4 then Except.ok (unpackF32 bs)
      else Except.error "struct.error: unpack requires a buffer of 4 bytes") = .ok bits
    rw [float_to_hex_toList]
    rw [fromhex_cons_pair _ _ (hd _) (hm _), fromhex_cons_pair _ _ (hd _) (hm _),
      fromhex_cons_pair _ _ (hd _) (hm _), fromhex_cons_pair _ _ (hd _) (hm _)]
    show Except.ok (unpackF32 _) = Except.ok bits
    unfold unpackF32
    simp only [List.foldl]
    congr 1
    omega
  · rfl
  · rw [float_to_hex_toList]
    intro c hc
    simp only [List.mem_cons, List.not_mem_nil, or_false] at hc
    rcases hc with h | h | h | h | h | h | h | h <;>
      exact h ▸ hexDigit_mem_hexChars ⟨_, by omega⟩

/-- Witness for C1, at the bit pattern of `1.0f` (`0x3f800000`). -/
theorem C1_float_codec_roundtrip_witness :
    hex_to_float (float_to_hex 1065353216) = .ok 1065353216 ∧
      (float_to_hex 1065353216).length = 8 ∧
      ∀ c ∈ (float_to_hex 1065353216).toList, c ∈ hexChars :=
  C1_float_codec_roundtrip 1065353216 (by norm_num)

theorem hexDigitVal_not_space {c : Char} {v : Nat} (h : hexDigitVal c = some v) :
    isSpaceChar c = false := by
  by_contra hsp
  have hsp' : isSpaceChar c = true := by
    cases hx : isSpaceChar c with
    | false => exact absurd hx hsp
    | true => rfl
  have hc : c = ' ' ∨ c = '\t' ∨ c = '\n' ∨ c = '\r' ∨ c = '\x0b' ∨ c = '\x0c' := by
    simpa [isSpaceChar] using hsp'
  rcases hc with rfl | rfl | rfl | rfl | rfl | rfl <;> simp [hexDigitVal] at h

/-- One step of `fromhex` over two characters that are hex digits. -/
theorem fromhex_cons_pair_val {c d : Char} {hi lo : Nat}
    (hc : hexDigitVal c = some hi) (hd : hexDigitVal d = some lo) (rest : List Char) :
    fromhex (c :: d :: rest) = (fromhex rest).map (fun bs => (hi * 16 + lo) :: bs) := by
  simp only [fromhex, hexDigitVal_not_space hc, Bool.false_eq_true, if_false, hc, hd]

/-- When `fromhex` succeeds on a string with no ASCII whitespace, the string
had exactly two hex-digit characters per produced byte. -/
theorem fromhex_ok_shape : ∀ (n : Nat) (s : List Char), s.length ≤ n →
    (∀ c ∈ s, isSpaceChar c = false) → ∀ bs, fromhex s = .ok bs →
    s.length = 2 * bs.length ∧ ∀ c ∈ s, (hexDigitVal c).isSome := by
  intro n
  induction n with
  | zero =>
    intro s hlen _ bs hok
    have hs : s = [] := List.eq_nil_of_length_eq_zero (Nat.le_zero.mp hlen)
    subst hs
    simp only [fromhex, Except.ok.injEq] at hok
    subst hok
    simp
  | succ n ih =>
    intro s hlen hws bs hok
    cases s with
    | nil =>
      simp only [fromhex, Except.ok.injEq] at hok
      subst hok
      simp
    | cons c cs =>
      have hcws : isSpaceChar c = false := hws c (List.mem_cons_self c cs)
      cases cs with
      | nil => simp [fromhex, hcws] at hok
      | cons d ds =>
        cases hvc : hexDigitVal c with
        | none => cases hvd : hexDigitVal d <;> simp [fromhex, hcws, hvc, hvd] at hok
        | some hi =>
          cases hvd : hexDigitVal d with
          | none => simp [fromhex, hcws, hvc, hvd] at hok
          | some lo =>
            simp only [fromhex, hcws, Bool.false_eq_true, if_false, hvc, hvd] at hok
            cases hds : fromhex ds with
            | error e => rw [hds] at hok; simp [Except.map] at hok
            | ok bs' =>
              rw [hds] at hok
              simp only [Except.map, Except.ok.injEq] at hok
              have hlen' : ds.length ≤ n := by
                simp only [List.length_cons] at hlen
                omega
              have hws' : ∀ x ∈ ds, isSpaceChar x = false := fun x hx =>
                hws x (List.mem_cons_of_mem _ (List.mem_cons_of_mem _ hx))
              obtain ⟨h1, h2⟩ := ih ds hlen' hws' bs' hds
              constructor
              · subst hok
                simp only [List.length_cons]
                omega
              · intro x hx
                rcases List.mem_cons.mp hx with rfl | hx'
                · simp [hvc]
                rcases List.mem_cons.mp hx' with rfl | hx''
                · simp [hvd]
                exact h2 x hx''

/-- C5 counterexample: the 9-character string `"3f80 0000"` is not 8 hex
characters and contains a non-hex character (a space), yet `hex_to_float`
succeeds on it (returning the bit pattern of `1.0f`), because
`bytes.fromhex` ignores ASCII whitespace between bytes. -/
theorem C5_decode_counterexample :
    (String.mk ['3', 'f', '8', '0', ' ', '0', '0', '0', '0']).length ≠ 8 ∧
      hexDigitVal ' ' = none ∧
      hex_to_float (String.mk ['3', 'f', '8', '0', ' ', '0', '0', '0', '0']) =
        .ok 1065353216 := by
  refine ⟨by decide, by decide, ?_⟩
  rfl

set_option maxRecDepth 2048 in
/-- C5 (amended): restricted to strings containing no ASCII whitespace,
`hex_to_float` fails (with a built-in `ValueError` or `struct.error`; the
code has no `MalformedInputError` class) on every string that is not exactly
8 hex characters or contains a non-hex character, and succeeds on every
string of exactly 8 hex characters, returning the float32 whose big-endian
bit pattern the string denotes. -/
theorem C5_decode_amended :
    (∀ s : List Char, (∀ c ∈ s, isSpaceChar c = false) →
      (s.length ≠ 8 ∨ ∃ c ∈ s, hexDigitVal c = none) →
      ∃ e, hex_to_float (String.mk s) = .error e) ∧
    (∀ c0 c1 c2 c3 c4 c5 c6 c7 : Char, ∀ v0 v1 v2 v3 v4 v5 v6 v7 : Nat,
      hexDigitVal c0 = some v0 → hexDigitVal c1 = some v1 →
      hexDigitVal c2 = some v2 → hexDigitVal c3 = some v3 →
      hexDigitVal c4 = some v4 → hexDigitVal c5 = some v5 →
      hexDigitVal c6 = some v6 → hexDigitVal c7 = some v7 →
      hex_to_float (String.mk [c0, c1, c2, c3, c4, c5, c6, c7]) =
        .ok (v0 * 16 ^ 7 + v1 * 16 ^ 6 + v2 * 16 ^ 5 + v3 * 16 ^ 4 +
          v4 * 16 ^ 3 + v5 * 16 ^ 2 + v6 * 16 + v7)) := by
  constructor
  · intro s hws hbad
    cases hres : hex_to_float (String.mk s) with
    | error e => exact ⟨e, rfl⟩
    | ok v =>
      exfalso
      cases hfh : fromhex s with
      | error e =>
        have : hex_to_float (String.mk s) = .error e :=
          hex_to_float_of_fromhex_error hfh
        rw [this] at hres
        exact absurd hres (by simp)
      | ok bs =>
        by_cases hb4 : bs.length = 4
        · obtain ⟨hlen, hhex⟩ := fromhex_ok_shape s.length s le_rfl hws bs hfh
          rcases hbad with h8 | ⟨c, hcmem, hcnone⟩
          · omega
          · have := hhex c hcmem
            rw [hcnone] at this
            simp at this
        · have : hex_to_float (String.mk s) = .error _ :=
            hex_to_float_of_fromhex_ok_ne hfh hb4
          rw [this] at hres
          exact absurd hres (by simp)
  · intro c0 c1 c2 c3 c4 c5 c6 c7 v0 v1 v2 v3 v4 v5 v6 v7 h0 h1 h2 h3 h4 h5 h6 h7
    have hfh : fromhex (String.mk [c0, c1, c2, c3, c4, c5, c6, c7]).toList =
        .ok [v0 * 16 + v1, v2 * 16 + v3, v4 * 16 + v5, v6 * 16 + v7] := by
      show fromhex [c0, c1, c2, c3, c4, c5, c6, c7] = _
      rw [fromhex_cons_pair_val h0 h1, fromhex_cons_pair_val h2 h3,
        fromhex_cons_pair_val h4 h5, fromhex_cons_pair_val h6 h7, fromhex_nil]
      rfl
    refine (hex_to_float_of_fromhex_ok hfh rfl).trans ?_
    congr 1
    simp only [unpackF32, List.foldl]
    ring

/-- Witness for the amended C5: the whitespace-free 3-character string
`"xyz"` fails to decode, and the 8-hex-character string `"3f800000"` decodes
to the bit pattern of `1.0f`. -/
theorem C5_decode_amended_witness :
    (∃ e, hex_to_float (String.mk ['x', 'y', 'z']) = .error e) ∧
      hex_to_float (String.mk ['3', 'f', '8', '0', '0', '0', '0', '0']) =
        .ok 1065353216 := by
  constructor
  · exact C5_decode_amended.1 ['x', 'y', 'z'] (by decide) (Or.inl (by decide))
  · have h := C5_decode_amended.2 '3' 'f' '8' '0' '0' '0' '0' '0' 3 15 8 0 0 0 0 0
      (by decide) (by decide) (by decide) (by decide)
      (by decide) (by decide) (by decide) (by decide)
    simpa using h

/-! ## Matrices and the MaxPool stage (`apply_maxpool_2d`)

A 2D numpy array of float32 is modelled as a rectangular `List (List Rat)`.
The max-pool operator only compares, selects and zero-pads its elements, all
of which float32 performs exactly, so the rational model is faithful. -/

/-- A 2D array of numeric values, row-major. -/
abbrev Mat := List (List Rat)

/-- Number of columns of a 2D array (numpy `shape[1]`; numpy arrays are
rectangular, so the first row is representative). -/
def width (m : Mat) : Nat := (m.headD []).length

/-- Rectangularity invariant of every numpy 2D array: all rows have the
common width. -/
def Rect (m : Mat) : Prop := ∀ row ∈ m, row.length = width m

/-- Python `np.pad(input_matrix, padding, mode="constant", constant_values=0)`
on a 2D array: surround the input with `p` rows/columns of zero on every
side. -/
def np_pad (p : Nat) (m : Mat) : Mat :=
  List.replicate p (List.replicate (width m + 2 * p) 0) ++
    m.map (fun r => List.replicate p (0 : Rat) ++ r ++ List.replicate p 0) ++
    List.replicate p (List.replicate (width m + 2 * p) 0)

/-- Python `np.max` over the values of an array slice: the maximum of a list,
raising `ValueError` on an empty one. -/
def npmax (l : List Rat) : Except String Rat :=
  match l with
  | [] => .error "ValueError: zero-size array to reduction operation maximum"
  | x :: xs => .ok (xs.foldl max x)

/-- Effectful map over a list in the `Except` monad, modelling a Python loop
that may raise. -/
def mapE {α β ε : Type} (f : α → Except ε β) : List α → Except ε (List β)
  | [] => .ok []
  | a :: as =>
    match f a with
    | .error e => .error e
    | .ok b =>
      match mapE f as with
      | .error e => .error e
      | .ok bs => .ok (b :: bs)

/-- Python 2D slice `m[a : a + h, b : b + w]` (slices clamp at the ends). -/
def sliceWindow (m : Mat) (a h b w : Nat) : Mat :=
  ((m.drop a).take h).map (fun r => (r.drop b).take w)

/-- The `if padding > 0: input_matrix = np.pad(...)` step of
`apply_maxpool_2d`. -/
def padIf (p : Nat) (m : Mat) : Mat := if 0 < p then np_pad p m else m

/-- Output dimension along one axis: `(in_dim - pool) // stride + 1`, with
Python floor division (`Int.fdiv`); the subtraction may go negative. -/
def outDim (len window stride : Nat) : Int :=
  ((len : Int) - window).fdiv stride + 1

/-- One output cell of the pooling loop: `np.max` of the window slice
`padded[i*sh : i*sh+ph, j*sw : j*sw+pw]`. -/
def poolCell (padded : Mat) (ph pw sh sw i j : Nat) : Except String Rat :=
  npmax ((sliceWindow padded (i * sh) ph (j * sw) pw).flatten)

/-- The double loop of `apply_maxpool_2d` filling the output array. -/
def poolBody (padded : Mat) (ph pw sh sw : Nat) : Except String Mat :=
  mapE (fun i => mapE (fun j => poolCell padded ph pw sh sw i j)
      (List.range (outDim (width padded) pw sw).toNat))
    (List.range (outDim padded.length ph sh).toNat)

/-- Python `apply_maxpool_2d(input_matrix, pool_h, pool_w, stride_h,
stride_w, padding)`.

Strides default to the pool size when `None`.  Padding is applied first when
positive.  Output dimensions use Python floor division `//`; a zero stride
raises `ZeroDivisionError` at that division, and `np.zeros((out_h, out_w))`
raises `ValueError` when a computed dimension is negative (a dimension of
zero is allowed and yields an empty array).  Each output cell is `np.max` of
the corresponding window slice of the padded matrix, which raises
`ValueError` on an empty slice. -/
def apply_maxpool_2d (input_matrix : Mat) (pool_h pool_w : Nat)
    (stride_h stride_w : Option Nat) (padding : Nat) : Except String Mat :=
  let sh := stride_h.getD pool_h
  let sw := stride_w.getD pool_w
  let padded := padIf padding input_matrix
  if sh = 0 ∨ sw = 0 then
    .error "ZeroDivisionError: integer division or modulo by zero"
  else if outDim padded.length pool_h sh < 0 ∨ outDim (width padded) pool_w sw < 0 then
    .error "ValueError: negative dimensions are not allowed"
  else
    poolBody padded pool_h pool_w sh sw

theorem mapE_ok_forall₂ {α β ε : Type} {f : α → Except ε β} :
    ∀ {l : List α} {r : List β}, mapE f l = .ok r →
      List.Forall₂ (fun a b => f a = .ok b) l r := by
  intro l
  induction l with
  | nil =>
    intro r h
    simp only [mapE, Except.ok.injEq] at h
    subst h
    exact List.Forall₂.nil
  | cons a as ih =>
    intro r h
    simp only [mapE] at h
    cases hfa : f a with
    | error e => rw [hfa] at h; simp at h
    | ok b =>
      rw [hfa] at h
      cases hrest : mapE f as with
      | error e => rw [hrest] at h; simp at h
      | ok bs =>
        rw [hrest] at h
        simp only [Except.ok.injEq] at h
        subst h
        exact List.Forall₂.cons hfa (ih hrest)

theorem mapE_ok_length {α β ε : Type} {f : α → Except ε β} {l : List α}
    {r : List β} (h : mapE f l = .ok r) : r.length = l.length :=
  (List.Forall₂.length_eq (mapE_ok_forall₂ h)).symm

theorem np_pad_length (p : Nat) (m : Mat) :
    (np_pad p m).length = m.length + 2 * p := by
  simp only [np_pad, List.length_append, List.length_replicate, List.length_map]
  omega

theorem np_pad_width (p : Nat) (hp : 0 < p) (m : Mat) :
    width (np_pad p m) = width m + 2 * p := by
  obtain ⟨q, rfl⟩ : ∃ q, p = q + 1 := ⟨p - 1, by omega⟩
  simp only [np_pad, List.replicate_succ, List.cons_append, List.headD_cons, width]
  simp

theorem padIf_length (p : Nat) (m : Mat) :
    (padIf p m).length = m.length + 2 * p := by
  unfold padIf
  by_cases hp : 0 < p
  · rw [if_pos hp, np_pad_length]
  · rw [if_neg hp]
    omega

theorem padIf_width (p : Nat) (m : Mat) :
    width (padIf p m) = width m + 2 * p := by
  unfold padIf
  by_cases hp : 0 < p
  · rw [if_pos hp, np_pad_width p hp]
  · rw [if_neg hp]
    omega

theorem forall₂_mem_right {α β : Type} {R : α → β → Prop} {l : List α}
    {r : List β} (h : List.Forall₂ R l r) : ∀ b ∈ r, ∃ a ∈ l, R a b := by
  induction h with
  | nil => intro b hb; exact absurd hb (List.not_mem_nil b)
  | cons hab _ ih =>
    intro b hb
    rcases List.mem_cons.mp hb with rfl | hb'
    · exact ⟨_, List.mem_cons_self _ _, hab⟩
    · obtain ⟨a, ha, hr⟩ := ih b hb'
      exact ⟨a, List.mem_cons_of_mem _ ha, hr⟩

/-- Inversion of a successful `apply_maxpool_2d`: strides are non-zero, the
computed output dimensions are non-negative, and the output is the one built
by the pooling loops over the padded matrix. -/
theorem apply_maxpool_2d_ok_inv {m : Mat} {ph pw : Nat} {shO swO : Option Nat}
    {p : Nat} {out : Mat} (hok : apply_maxpool_2d m ph pw shO swO p = .ok out) :
    shO.getD ph ≠ 0 ∧ swO.getD pw ≠ 0 ∧
      0 ≤ outDim (padIf p m).length ph (shO.getD ph) ∧
      0 ≤ outDim (width (padIf p m)) pw (swO.getD pw) ∧
      poolBody (padIf p m) ph pw (shO.getD ph) (swO.getD pw) = .ok out := by
  unfold apply_maxpool_2d at hok
  by_cases h0 : shO.getD ph = 0 ∨ swO.getD pw = 0
  · rw [if_pos h0] at hok
    exact absurd hok (by simp)
  · rw [if_neg h0] at hok
    by_cases h1 : outDim (padIf p m).length ph (shO.getD ph) < 0 ∨
        outDim (width (padIf p m)) pw (swO.getD pw) < 0
    · rw [if_pos h1] at hok
      exact absurd hok (by simp)
    · rw [if_neg h1] at hok
      push_neg at h0 h1
      exact ⟨h0.1, h0.2, h1.1, h1.2, hok⟩

/-- C2: MaxPool output shape.  Whenever `apply_maxpool_2d` returns a matrix,
that matrix has `floor((H0 + 2p - ph) / sh) + 1` rows and every row has
`floor((W0 + 2p - pw) / sw) + 1` entries, where the strides default to the
window dimensions when unspecified. -/
theorem C2_maxpool_output_shape {m : Mat} {ph pw : Nat} {shO swO : Option Nat}
    {p : Nat} {out : Mat} (hok : apply_maxpool_2d m ph pw shO swO p = .ok out) :
    (out.length : Int) =
        ((m.length : Int) + 2 * p - ph).fdiv (shO.getD ph) + 1 ∧
      ∀ row ∈ out, (row.length : Int) =
        ((width m : Int) + 2 * p - pw).fdiv (swO.getD pw) + 1 := by
  obtain ⟨hsh, hsw, hoh, how, hbody⟩ := apply_maxpool_2d_ok_inv hok
  unfold poolBody at hbody
  have hlen := mapE_ok_length hbody
  rw [List.length_range] at hlen
  have hohval : outDim (padIf p m).length ph (shO.getD ph) =
      ((m.length : Int) + 2 * p - ph).fdiv (shO.getD ph) + 1 := by
    unfold outDim
    rw [padIf_length]
    push_cast
    ring_nf
  have howval : outDim (width (padIf p m)) pw (swO.getD pw) =
      ((width m : Int) + 2 * p - pw).fdiv (swO.getD pw) + 1 := by
    unfold outDim
    rw [padIf_width]
    push_cast
    ring_nf
  constructor
  · rw [hlen, ← hohval]
    omega
  · intro row hrow
    obtain ⟨i, _, hri⟩ := forall₂_mem_right (mapE_ok_forall₂ hbody) row hrow
    have := mapE_ok_length hri
    rw [List.length_range] at this
    rw [this, ← howval]
    omega

/-- Witness for C2: a 2×2 input pooled with a 2×2 window, default strides and
no padding yields a 1×1 output. -/
theorem C2_maxpool_output_shape_witness :
    (([[(4 : Rat)]] : Mat).length : Int) =
        ((([[(1 : Rat), 2], [3, 4]] : Mat).length : Int) + 2 * 0 - 2).fdiv 2 + 1 ∧
      ∀ row ∈ ([[(4 : Rat)]] : Mat), (row.length : Int) =
        ((width [[(1 : Rat), 2], [3, 4]] : Int) + 2 * 0 - 2).fdiv 2 + 1 :=
  @C2_maxpool_output_shape [[1, 2], [3, 4]] 2 2 none none 0 [[4]] (by rfl)

/-- C3 counterexample: a 1×1 input with a 2×2 window and no padding has
`ph > H` (2 > 1) and computed output dimensions 0 × 0, yet `apply_maxpool_2d`
silently returns an empty output instead of failing: `np.zeros((0, 0))`
accepts zero dimensions and the loops never run. -/
theorem C3_maxpool_invalid_counterexample :
    ([[(0 : Rat)]] : Mat).length < 2 ∧
      outDim (padIf 0 [[(0 : Rat)]]).length 2 2 = 0 ∧
      apply_maxpool_2d [[(0 : Rat)]] 2 2 none none 0 = .ok [] :=
  ⟨by decide, by decide, by rfl⟩

theorem mapE_const_ok {α β ε : Type} {f : α → Except ε β} {b : β}
    (hf : ∀ a, f a = .ok b) : ∀ l : List α,
      mapE f l = .ok (List.replicate l.length b) := by
  intro l
  induction l with
  | nil => rfl
  | cons a as ih =>
    simp only [mapE, hf a, ih, List.length_cons, List.replicate_succ]

/-- C3 (amended): with non-zero strides, the operation fails only when a
computed output dimension is negative — and then with numpy built-in
`ValueError` (the code has no `InvalidConfigurationError`); when a computed
output dimension is exactly zero (window exceeding the padded dimension by
less than one stride) it silently returns an empty output: no rows at all
when the row count is zero, and `out_h` empty rows when the column count is
zero. -/
theorem C3_maxpool_invalid_amended {m : Mat} {ph pw : Nat} {shO swO : Option Nat}
    {p : Nat} (hsh : shO.getD ph ≠ 0) (hsw : swO.getD pw ≠ 0) :
    (outDim (padIf p m).length ph (shO.getD ph) < 0 ∨
        outDim (width (padIf p m)) pw (swO.getD pw) < 0 →
      apply_maxpool_2d m ph pw shO swO p =
        .error "ValueError: negative dimensions are not allowed") ∧
    (outDim (padIf p m).length ph (shO.getD ph) = 0 →
      0 ≤ outDim (width (padIf p m)) pw (swO.getD pw) →
      apply_maxpool_2d m ph pw shO swO p = .ok []) ∧
    (outDim (width (padIf p m)) pw (swO.getD pw) = 0 →
      0 ≤ outDim (padIf p m).length ph (shO.getD ph) →
      apply_maxpool_2d m ph pw shO swO p =
        .ok (List.replicate
          (outDim (padIf p m).length ph (shO.getD ph)).toNat [])) := by
  have hcond : ¬(shO.getD ph = 0 ∨ swO.getD pw = 0) := by tauto
  refine ⟨?_, ?_, ?_⟩
  · intro hneg
    unfold apply_maxpool_2d
    rw [if_neg hcond, if_pos hneg]
  · intro hz hw
    unfold apply_maxpool_2d
    rw [if_neg hcond, if_neg (by omega)]
    unfold poolBody
    rw [hz]
    rfl
  · intro hz hh
    unfold apply_maxpool_2d
    rw [if_neg hcond, if_neg (by omega)]
    unfold poolBody
    rw [hz]
    have hinner : ∀ i : Nat,
        mapE (fun j => poolCell (padIf p m) ph pw (shO.getD ph) (swO.getD pw) i j)
          (List.range (Int.toNat 0)) = .ok [] := fun i => rfl
    rw [mapE_const_ok hinner, List.length_range]

/-- Witness for the amended C3: a 1×1 input with a 4×4 window and stride 1
has output dimension −2 and fails with `ValueError`; a 1×1 input with a 2×2
window and default stride has zero rows and returns the silently empty
output; and a 3×1 input with a 2×2 window has `out_h = 1`, `out_w = 0` and
silently returns one empty row — an empty `(1, 0)` array, again with no
error. -/
theorem C3_maxpool_invalid_amended_witness :
    apply_maxpool_2d [[(0 : Rat)]] 4 4 (some 1) (some 1) 0 =
        .error "ValueError: negative dimensions are not allowed" ∧
      apply_maxpool_2d [[(0 : Rat)]] 2 2 none none 0 = .ok [] ∧
      apply_maxpool_2d [[(0 : Rat)], [0], [0]] 2 2 none none 0 = .ok [[]] :=
  ⟨(@C3_maxpool_invalid_amended [[0]] 4 4 (some 1) (some 1) 0
      (by decide) (by decide)).1 (Or.inl (by decide)),
    (@C3_maxpool_invalid_amended [[0]] 2 2 none none 0
      (by decide) (by decide)).2.1 (by decide) (by decide),
    (@C3_maxpool_invalid_amended [[0], [0], [0]] 2 2 none none 0
      (by decide) (by decide)).2.2 (by decide) (by decide)⟩

theorem foldl_max_spec (xs : List Rat) (x : Rat) :
    x ≤ xs.foldl max x ∧ ∀ y ∈ xs, y ≤ xs.foldl max x := by
  induction xs generalizing x with
  | nil => simp
  | cons a as ih =>
    simp only [List.foldl_cons]
    obtain ⟨h1, h2⟩ := ih (max x a)
    refine ⟨le_trans (le_max_left x a) h1, ?_⟩
    intro y hy
    rcases List.mem_cons.mp hy with rfl | hy'
    · exact le_trans (le_max_right x y) h1
    · exact h2 y hy'

theorem foldl_max_mem (xs : List Rat) (x : Rat) : xs.foldl max x ∈ x :: xs := by
  induction xs generalizing x with
  | nil => simp
  | cons a as ih =>
    simp only [List.foldl_cons]
    rcases List.mem_cons.mp (ih (max x a)) with heq | hmem
    · rw [heq]
      rcases max_choice x a with h | h <;> rw [h]
      · exact List.mem_cons_self _ _
      · exact List.mem_cons_of_mem _ (List.mem_cons_self _ _)
    · exact List.mem_cons_of_mem _ (List.mem_cons_of_mem _ hmem)

theorem npmax_spec {l : List Rat} {v : Rat} (h : npmax l = .ok v) :
    (∀ y ∈ l, y ≤ v) ∧ v ∈ l := by
  cases l with
  | nil => simp [npmax] at h
  | cons x xs =>
    simp only [npmax, Except.ok.injEq] at h
    subst h
    obtain ⟨h1, h2⟩ := foldl_max_spec xs x
    refine ⟨?_, foldl_max_mem xs x⟩
    intro y hy
    rcases List.mem_cons.mp hy with rfl | hy'
    · exact h1
    · exact h2 y hy'

theorem forall₂_getD {α β : Type} {R : α → β → Prop} {l : List α} {r : List β}
    (h : List.Forall₂ R l r) (da : α) (db : β) :
    ∀ i, i < l.length → R (l.getD i da) (r.getD i db) := by
  induction h with
  | nil => intro i hi; simp at hi
  | cons hab hrest ih =>
    intro i hi
    cases i with
    | zero => simpa using hab
    | succ n =>
      rw [List.getD_cons_succ, List.getD_cons_succ]
      exact ih n (by simpa using hi)

theorem mapE_ok_getD {α β ε : Type} {f : α → Except ε β} {l : List α}
    {r : List β} (h : mapE f l = .ok r) (da : α) (db : β) (i : Nat)
    (hi : i < l.length) : f (l.getD i da) = .ok (r.getD i db) :=
  forall₂_getD (mapE_ok_forall₂ h) da db i hi

theorem getD_replicate_self {α : Type} (n i : Nat) (a d : α) (h : i < n) :
    (List.replicate n a).getD i d = a := by
  rw [List.getD_eq_getElem _ _ (by simpa using h)]
  exact List.getElem_replicate ..

theorem getD_replicate_zero (n c : Nat) :
    (List.replicate n (0 : Rat)).getD c 0 = 0 := by
  by_cases h : c < n
  · exact getD_replicate_self n c 0 0 h
  · exact List.getD_eq_default _ _ (by simpa using not_lt.mp h)

theorem getD_mem {α : Type} {l : List α} {i : Nat} (d : α) (h : i < l.length) :
    l.getD i d ∈ l := by
  rw [List.getD_eq_getElem _ _ h]
  exact List.getElem_mem ..

/-- Entry characterization of `np_pad` on a rectangular matrix: position
`(r, c)` of the padded matrix holds the original entry shifted by `p` when
inside the interior, and exactly zero everywhere else. -/
theorem np_pad_getD {p : Nat} {m : Mat} (hrect : Rect m) (r c : Nat) :
    ((np_pad p m).getD r []).getD c 0 =
      if p ≤ r ∧ r < p + m.length ∧ p ≤ c ∧ c < p + width m
      then (m.getD (r - p) []).getD (c - p) 0 else 0 := by
  unfold np_pad
  set zrow := List.replicate (width m + 2 * p) (0 : Rat) with hzrow
  by_cases hr1 : r < p
  · rw [List.getD_append _ _ _ _ (by simp; omega)]
    rw [List.getD_append _ _ _ _ (by simpa using hr1)]
    rw [getD_replicate_self p r zrow [] hr1, hzrow, getD_replicate_zero]
    rw [if_neg (by omega)]
  · by_cases hr2 : r < p + m.length
    · rw [List.getD_append _ _ _ _ (by simp; omega)]
      rw [List.getD_append_right _ _ _ _ (by simp; omega)]
      have hrp : r - p < m.length := by omega
      have hrp' : r - p < (m.map
          (fun row => List.replicate p (0 : Rat) ++ row ++ List.replicate p 0)).length := by
        simpa using hrp
      rw [List.length_replicate, List.getD_eq_getElem _ _ hrp', List.getElem_map]
      have horig : m[r - p] = m.getD (r - p) [] :=
        (List.getD_eq_getElem m [] hrp).symm
      have hlen : (m.getD (r - p) []).length = width m :=
        hrect _ (getD_mem [] hrp)
      rw [horig]
      by_cases hc1 : c < p
      · rw [List.getD_append _ _ _ _ (by simp; omega)]
        rw [List.getD_append _ _ _ _ (by simpa using hc1)]
        rw [getD_replicate_zero, if_neg (by omega)]
      · by_cases hc2 : c < p + width m
        · rw [List.getD_append _ _ _ _
            (by rw [List.length_append, List.length_replicate, hlen]; omega)]
          rw [List.getD_append_right _ _ _ _ (by rw [List.length_replicate]; omega)]
          rw [List.length_replicate, if_pos (by omega)]
        · rw [List.getD_append_right _ _ _ _
            (by rw [List.length_append, List.length_replicate, hlen]; omega)]
          rw [getD_replicate_zero, if_neg (by omega)]
    · rw [List.getD_append_right _ _ _ _ (by simp; omega)]
      simp only [List.length_append, List.length_replicate, List.length_map]
      by_cases hr3 : r - (p + m.length) < p
      · rw [getD_replicate_self p (r - (p + m.length)) zrow [] hr3]
        rw [hzrow, getD_replicate_zero, if_neg (by omega)]
      · have hdef : (List.replicate p zrow).getD (r - (p + m.length)) [] = [] :=
          List.getD_eq_default _ _ (by rw [List.length_replicate]; omega)
        rw [hdef, if_neg (by omega)]
        rfl

/-- Padding a rectangular matrix yields a rectangular matrix. -/
theorem rect_np_pad {p : Nat} {m : Mat} (hrect : Rect m) (hp : 0 < p) :
    Rect (np_pad p m) := by
  intro row hrow
  rw [np_pad_width p hp]
  unfold np_pad at hrow
  simp only [List.mem_append, List.mem_replicate, List.mem_map] at hrow
  rcases hrow with (⟨_, rfl⟩ | ⟨r, hr, rfl⟩) | ⟨_, rfl⟩
  · simp
  · simp only [List.length_append, List.length_replicate, hrect r hr]
    omega
  · simp

/-- Row `i` of the pooling output exists only when the whole window starting
at `i * stride` fits inside the padded dimension. -/
theorem out_index_mul_bound {L window stride : Nat} {i : Nat} (hs : stride ≠ 0)
    (hi : (i : Int) < outDim L window stride) : i * stride + window ≤ L := by
  unfold outDim at hi
  have hs' : (0 : Int) < stride := by
    have : 0 < stride := Nat.pos_of_ne_zero hs
    exact_mod_cast this
  rw [Int.fdiv_eq_ediv _ (le_of_lt hs')] at hi
  have h2 : (i : Int) ≤ ((L : Int) - window) / stride := by omega
  have h3 := (Int.le_ediv_iff_mul_le hs').mp h2
  have h4 : (i : Int) * stride + window ≤ L := by omega
  exact_mod_cast h4

/-- Cell semantics of a successful pooling loop over a rectangular padded
matrix: every cell `(i, j)` of the output dominates every entry of its
`ph × pw` window starting at `(i*sh, j*sw)` in the padded matrix, and is
itself one of those entries — i.e. it is the window maximum. -/
theorem poolBody_cell_spec {padded : Mat} {ph pw sh sw : Nat} {out : Mat}
    (hrectP : Rect padded) (hsh : sh ≠ 0) (hsw : sw ≠ 0)
    (hbody : poolBody padded ph pw sh sw = .ok out)
    (i j : Nat) (hi : i < out.length) (hj : j < (out.getD i []).length) :
    (∀ di, di < ph → ∀ dj, dj < pw →
        (padded.getD (i * sh + di) []).getD (j * sw + dj) 0 ≤
          (out.getD i []).getD j 0) ∧
      ∃ di, di < ph ∧ ∃ dj, dj < pw ∧
        (out.getD i []).getD j 0 =
          (padded.getD (i * sh + di) []).getD (j * sw + dj) 0 := by
  unfold poolBody at hbody
  have hlenout := mapE_ok_length hbody
  rw [List.length_range] at hlenout
  have hiN : i < (outDim padded.length ph sh).toNat := by omega
  have hirange : i < (List.range (outDim padded.length ph sh).toNat).length := by
    rw [List.length_range]; exact hiN
  have hrow0 := mapE_ok_getD hbody 0 [] i hirange
  rw [List.getD_eq_getElem _ _ hirange, List.getElem_range] at hrow0
  have hrow : mapE (fun j => poolCell padded ph pw sh sw i j)
      (List.range (outDim (width padded) pw sw).toNat) = .ok (out.getD i []) := hrow0
  have hlenrow := mapE_ok_length hrow
  rw [List.length_range] at hlenrow
  have hjN : j < (outDim (width padded) pw sw).toNat := by omega
  have hjrange : j < (List.range (outDim (width padded) pw sw).toNat).length := by
    rw [List.length_range]; exact hjN
  have hcell0 := mapE_ok_getD hrow 0 0 j hjrange
  rw [List.getD_eq_getElem _ _ hjrange, List.getElem_range] at hcell0
  have hcell : poolCell padded ph pw sh sw i j =
      .ok ((out.getD i []).getD j 0) := hcell0
  unfold poolCell at hcell
  obtain ⟨hle, hmem⟩ := npmax_spec hcell
  have hrowbound : i * sh + ph ≤ padded.length :=
    out_index_mul_bound hsh (Int.lt_toNat.mp hiN)
  have hcolbound : j * sw + pw ≤ width padded :=
    out_index_mul_bound hsw (Int.lt_toNat.mp hjN)
  constructor
  · intro di hdi dj hdj
    have hdi' : i * sh + di < padded.length := by omega
    have hplen : (padded.getD (i * sh + di) []).length = width padded :=
      hrectP _ (getD_mem [] hdi')
    have hdj' : j * sw + dj < (padded.getD (i * sh + di) []).length := by
      rw [hplen]; omega
    apply hle
    rw [List.mem_flatten]
    refine ⟨((padded.getD (i * sh + di) []).drop (j * sw)).take pw, ?_, ?_⟩
    · unfold sliceWindow
      apply List.mem_map_of_mem
      rw [List.mem_iff_getElem]
      refine ⟨di, ?_, ?_⟩
      · rw [List.length_take, List.length_drop]
        omega
      · rw [List.getElem_take, List.getElem_drop]
        exact (List.getD_eq_getElem padded [] hdi').symm
    · rw [List.mem_iff_getElem]
      refine ⟨dj, ?_, ?_⟩
      · rw [List.length_take, List.length_drop]
        omega
      · rw [List.getElem_take, List.getElem_drop]
        exact (List.getD_eq_getElem _ 0 hdj').symm
  · rw [List.mem_flatten] at hmem
    obtain ⟨wrow, hwrow, hvin⟩ := hmem
    unfold sliceWindow at hwrow
    rw [List.mem_iff_getElem] at hwrow
    obtain ⟨di, hdiLen, hwrowEq⟩ := hwrow
    have hdibase : di < ((padded.drop (i * sh)).take ph).length := by
      simpa using hdiLen
    rw [List.length_take, List.length_drop] at hdibase
    have hdi_ph : di < ph := by omega
    have hdi_pad : i * sh + di < padded.length := by omega
    rw [List.getElem_map, List.getElem_take, List.getElem_drop] at hwrowEq
    subst hwrowEq
    rw [List.mem_iff_getElem] at hvin
    obtain ⟨dj, hdjLen, hvEq⟩ := hvin
    rw [List.length_take, List.length_drop] at hdjLen
    have hdj_pw : dj < pw := by omega
    have hdj_in : j * sw + dj < (padded[i * sh + di]).length := by omega
    rw [List.getElem_take, List.getElem_drop] at hvEq
    refine ⟨di, hdi_ph, dj, hdj_pw, ?_⟩
    rw [List.getD_eq_getElem padded [] hdi_pad]
    rw [List.getD_eq_getElem _ 0 hdj_in]
    exact hvEq.symm

/-- C4: MaxPool cell semantics with zero padding.  For every rectangular
input with `p > 0` on which the operation succeeds: the padded matrix
surrounds the input with exactly `p` rows/columns of zero on all four sides
(dimension and entry characterization), and each output cell `(i, j)` is the
maximum over the `ph × pw` window of the padded matrix starting at row
`i*sh`, column `j*sw` (it dominates every window entry and equals one of
them); in particular a 2×2 input of all `-1` with window 2×2 and padding 1
produces an output whose every (border) cell is `0`. -/
theorem C4_maxpool_cell_semantics :
    (∀ (m : Mat) (ph pw : Nat) (shO swO : Option Nat) (p : Nat) (out : Mat),
      Rect m → 0 < p → apply_maxpool_2d m ph pw shO swO p = .ok out →
      ((np_pad p m).length = m.length + 2 * p ∧
        width (np_pad p m) = width m + 2 * p ∧
        ∀ r c : Nat, ((np_pad p m).getD r []).getD c 0 =
          if p ≤ r ∧ r < p + m.length ∧ p ≤ c ∧ c < p + width m
          then (m.getD (r - p) []).getD (c - p) 0 else 0) ∧
      ∀ i j : Nat, i < out.length → j < (out.getD i []).length →
        (∀ di, di < ph → ∀ dj, dj < pw →
          ((np_pad p m).getD (i * shO.getD ph + di) []).getD
              (j * swO.getD pw + dj) 0 ≤ (out.getD i []).getD j 0) ∧
        ∃ di, di < ph ∧ ∃ dj, dj < pw ∧
          (out.getD i []).getD j 0 =
            ((np_pad p m).getD (i * shO.getD ph + di) []).getD
              (j * swO.getD pw + dj) 0) ∧
    apply_maxpool_2d [[-1, -1], [-1, -1]] 2 2 none none 1 = .ok [[0, 0], [0, 0]] := by
  constructor
  · intro m ph pw shO swO p out hrect hp hok
    obtain ⟨hsh, hsw, _, _, hbody⟩ := apply_maxpool_2d_ok_inv hok
    have hpad : padIf p m = np_pad p m := if_pos hp
    rw [hpad] at hbody
    refine ⟨⟨np_pad_length p m, np_pad_width p hp m,
      fun r c => np_pad_getD hrect r c⟩, ?_⟩
    intro i j hi hj
    exact poolBody_cell_spec (rect_np_pad hrect hp) hsh hsw hbody i j hi hj
  · rfl

/-- Witness for C4, at the 2×2 all `-1` input with window 2×2 and padding 1
from the specification example: cell `(0, 0)` of the output `[[0,0],[0,0]]`
is an entry of its window in the padded matrix. -/
theorem C4_maxpool_cell_semantics_witness :
    ∃ di, di < 2 ∧ ∃ dj, dj < 2 ∧
      (([[(0 : Rat), 0], [0, 0]] : Mat).getD 0 []).getD 0 0 =
        ((np_pad 1 [[(-1 : Rat), -1], [-1, -1]]).getD (0 * 2 + di) []).getD
          (0 * 2 + dj) 0 :=
  ((C4_maxpool_cell_semantics.1 [[-1, -1], [-1, -1]] 2 2 none none 1
      [[0, 0], [0, 0]]
      (by intro row hrow; rcases List.mem_cons.mp hrow with rfl | hrow2; · rfl
          rcases List.mem_cons.mp hrow2 with rfl | hrow3; · rfl
          exact absurd hrow3 (List.not_mem_nil row))
      (by decide) (by rfl)).2 0 0 (by decide) (by decide)).2

/-! ## Activation stage (`apply_activation`)

The `relu` branch is `np.maximum(0, x)`, exact over the rationals.  The
`sigmoid` and `tanh` branches apply transcendental element functions which a
rational model cannot represent; they are taken as explicit function
parameters, and every verified property holds for all choices of them. -/

/-- Python `apply_activation(x, activation_type)`: dispatch on the mode tag;
`relu` is element-wise `max(0, ·)`, `none` returns the input, and the final
`else` branch returns the input unchanged for every unrecognized tag. -/
def apply_activation (sigmoidFn tanhFn : Rat → Rat) (x : Mat)
    (activation_type : String) : Mat :=
  if activation_type = "relu" then x.map (fun row => row.map (fun v => max 0 v))
  else if activation_type = "sigmoid" then x.map (fun row => row.map sigmoidFn)
  else if activation_type = "tanh" then x.map (fun row => row.map tanhFn)
  else if activation_type = "none" then x
  else x

theorem getD_map_length {α β : Type} (f : α → β) (x : List (List α)) (i : Nat) :
    ((x.map (fun row => row.map f)).getD i []).length = (x.getD i []).length := by
  by_cases h : i < x.length
  · rw [List.getD_eq_getElem _ _ (by simpa using h), List.getElem_map,
      List.length_map, List.getD_eq_getElem _ _ h]
  · rw [List.getD_eq_default _ _ (by simpa using not_lt.mp h),
      List.getD_eq_default _ _ (by simpa using not_lt.mp h)]
    rfl

/-- C6: activation fallback.  For every mode tag outside the recognized set
(of the four dispatch branches) `apply_activation` returns the input matrix
unchanged and raises no error (it is a total function); the `relu` tag
computes element-wise `max(0, x)`, preserving the shape. -/
theorem C6_activation_fallback (sigmoidFn tanhFn : Rat → Rat) (x : Mat)
    (tag : String) :
    (tag ≠ "relu" → tag ≠ "sigmoid" → tag ≠ "tanh" → tag ≠ "none" →
      apply_activation sigmoidFn tanhFn x tag = x) ∧
    apply_activation sigmoidFn tanhFn x "relu" =
        x.map (fun row => row.map (fun v => max 0 v)) ∧
      (apply_activation sigmoidFn tanhFn x "relu").length = x.length ∧
      ∀ i : Nat, ((apply_activation sigmoidFn tanhFn x "relu").getD i []).length =
        (x.getD i []).length := by
  refine ⟨?_, ?_, ?_, ?_⟩
  · intro h1 h2 h3 h4
    unfold apply_activation
    rw [if_neg h1, if_neg h2, if_neg h3, if_neg h4]
  · unfold apply_activation
    rw [if_pos rfl]
  · unfold apply_activation
    rw [if_pos rfl, List.length_map]
  · intro i
    unfold apply_activation
    rw [if_pos rfl]
    exact getD_map_length _ x i

/-- Witness for C6: the unrecognized tag `"gelu"` falls back to the identity
on a concrete matrix, and the `relu` tag clamps its negatives to zero. -/
theorem C6_activation_fallback_witness :
    apply_activation id id [[-2, 0, 3]] "gelu" = [[-2, 0, 3]] ∧
      apply_activation id id [[-2, 0, 3]] "relu" = [[0, 0, 3]] :=
  ⟨(C6_activation_fallback id id [[-2, 0, 3]] "gelu").1
      (by decide) (by decide) (by decide) (by decide),
    ((C6_activation_fallback id id [[-2, 0, 3]] "relu").2.1).trans (by decide)⟩

/-! ## Dropout stage (`apply_dropout`)

The mask `np.random.binomial(1, 1 - p)` is modelled by inverse-transform
sampling from a uniform draw `u ∈ [0, 1)`: the mask entry is 1 exactly when
`u < 1 - p`.  The generator state is a `Nat` threaded explicitly, and
`np.random.seed` replaces it by `seedFn seed`. -/

/-- One row of the Bernoulli mask, threading the generator state. -/
def maskRow (drawU : Nat → Rat × Nat) (p : Rat) : Nat → Nat → List Rat × Nat
  | 0, g => ([], g)
  | k + 1, g =>
    let d := drawU g
    let rest := maskRow drawU p k d.2
    ((if d.1 < 1 - p then (1 : Rat) else 0) :: rest.1, rest.2)

/-- The full Bernoulli mask, one row per requested row length. -/
def maskMat (drawU : Nat → Rat × Nat) (p : Rat) :
    List Nat → Nat → List (List Rat) × Nat
  | [], g => ([], g)
  | n :: ns, g =>
    let row := maskRow drawU p n g
    let rest := maskMat drawU p ns row.2
    (row.1 :: rest.1, rest.2)

/-- Python `apply_dropout(x, dropout_p, training_mode, seed)` over rational
matrices.  Training mode reseeds when a seed is supplied, draws a Bernoulli
mask of the shape of `x` and returns `x * mask / (1 - dropout_p)`; inference
mode returns the input unchanged.  Rational division is total
(`q / 0 = 0`); the IEEE-754 behaviour of the `p = 1` division by zero is
captured by the refined float-valued model `apply_dropout_fp` below. -/
def apply_dropout (seedFn : Nat → Nat) (drawU : Nat → Rat × Nat) (x : Mat)
    (dropout_p : Rat) (training_mode : Bool) (seed : Option Nat) (g : Nat) :
    Mat × Nat :=
  if training_mode then
    let g0 := match seed with | some s => seedFn s | none => g
    let mk := maskMat drawU dropout_p (x.map List.length) g0
    (List.zipWith (fun xrow mrow =>
        List.zipWith (fun xv mv => xv * mv / (1 - dropout_p)) xrow mrow) x mk.1,
      mk.2)
  else (x, g)

/-- A float32 value for the stages where non-finite values genuinely arise:
either a finite value (represented exactly as a rational — no rounding is
modelled, which is exact for the multiplications by 0 and 1 and divisions
analysed here), a NaN, or a signed infinity.  The distinction between +0.0
and -0.0 is not modelled (irrelevant to the NaN analysis). -/
inductive F32V where
  | fin : Rat → F32V
  | nan : F32V
  | pinf : F32V
  | ninf : F32V
deriving DecidableEq

/-- IEEE-754 multiplication on the value level: NaN propagates, `inf * 0`
is NaN, signs multiply. -/
def F32V.mul : F32V → F32V → F32V
  | nan, _ => nan
  | _, nan => nan
  | fin a, fin b => fin (a * b)
  | fin a, pinf => if a = 0 then nan else if 0 < a then pinf else ninf
  | pinf, fin a => if a = 0 then nan else if 0 < a then pinf else ninf
  | fin a, ninf => if a = 0 then nan else if 0 < a then ninf else pinf
  | ninf, fin a => if a = 0 then nan else if 0 < a then ninf else pinf
  | pinf, pinf => pinf
  | pinf, ninf => ninf
  | ninf, pinf => ninf
  | ninf, ninf => pinf

/-- IEEE-754 division on the value level: NaN propagates, `0 / 0` and
`inf / inf` are NaN, `x / 0` is a signed infinity for finite non-zero `x`,
`x / inf` is zero. -/
def F32V.div : F32V → F32V → F32V
  | nan, _ => nan
  | _, nan => nan
  | fin a, fin b =>
    if b = 0 then (if a = 0 then nan else if 0 < a then pinf else ninf)
    else fin (a / b)
  | fin _, pinf => fin 0
  | fin _, ninf => fin 0
  | pinf, fin b => if 0 ≤ b then pinf else ninf
  | ninf, fin b => if 0 ≤ b then ninf else pinf
  | pinf, pinf => nan
  | pinf, ninf => nan
  | ninf, pinf => nan
  | ninf, ninf => nan

/-- The training-mode path of `apply_dropout` with IEEE-754 value semantics
(`x * mask / (1 - dropout_p)` element-wise); identical in structure to the
rational model, but the arithmetic keeps NaN and infinities. -/
def apply_dropout_fp (seedFn : Nat → Nat) (drawU : Nat → Rat × Nat)
    (x : List (List F32V)) (dropout_p : Rat) (training_mode : Bool)
    (seed : Option Nat) (g : Nat) : List (List F32V) × Nat :=
  if training_mode then
    let g0 := match seed with | some s => seedFn s | none => g
    let mk := maskMat drawU dropout_p (x.map List.length) g0
    (List.zipWith (fun xrow mrow =>
        List.zipWith (fun xv mv => F32V.div (F32V.mul xv (F32V.fin mv))
          (F32V.fin (1 - dropout_p))) xrow mrow) x mk.1,
      mk.2)
  else (x, g)

theorem mem_zipWith {α β γ : Type} {f : α → β → γ} :
    ∀ {as : List α} {bs : List β} {v : γ}, v ∈ List.zipWith f as bs →
      ∃ a ∈ as, ∃ b ∈ bs, v = f a b := by
  intro as
  induction as with
  | nil => intro bs v hv; simp at hv
  | cons a as ih =>
    intro bs v hv
    cases bs with
    | nil => simp at hv
    | cons b bs =>
      rw [List.zipWith_cons_cons] at hv
      rcases List.mem_cons.mp hv with rfl | hv'
      · exact ⟨a, List.mem_cons_self a as, b, List.mem_cons_self b bs, rfl⟩
      · obtain ⟨a', ha', b', hb', rfl⟩ := ih hv'
        exact ⟨a', List.mem_cons_of_mem _ ha', b', List.mem_cons_of_mem _ hb', rfl⟩

/-- With dropout probability 1, the Bernoulli mask row is identically zero:
the retention test `u < 1 - p` compares a non-negative uniform draw with 0. -/
theorem maskRow_one_zero {drawU : Nat → Rat × Nat}
    (hu : ∀ g', 0 ≤ (drawU g').1) :
    ∀ (n g : Nat), ∀ mv ∈ (maskRow drawU 1 n g).1, mv = 0 := by
  intro n
  induction n with
  | zero => intro g mv hmv; simp [maskRow] at hmv
  | succ k ih =>
    intro g mv hmv
    simp only [maskRow] at hmv
    rcases List.mem_cons.mp hmv with rfl | hmv'
    · rw [if_neg]
      intro hlt
      have := hu g
      have h10 : (1 : Rat) - 1 = 0 := by norm_num
      rw [h10] at hlt
      exact absurd hlt (not_lt.mpr this)
    · exact ih _ mv hmv'

theorem maskMat_one_zero {drawU : Nat → Rat × Nat}
    (hu : ∀ g', 0 ≤ (drawU g').1) :
    ∀ (ns : List Nat) (g : Nat), ∀ row ∈ (maskMat drawU 1 ns g).1,
      ∀ mv ∈ row, mv = 0 := by
  intro ns
  induction ns with
  | nil => intro g row hrow; simp [maskMat] at hrow
  | cons n ns ih =>
    intro g row hrow
    simp only [maskMat] at hrow
    rcases List.mem_cons.mp hrow with rfl | hrow'
    · exact maskRow_one_zero hu n g
    · exact ih _ row hrow'

/-- Every float32 value multiplied by exact zero and divided by exact zero
gives NaN: `fin a * 0 = 0` and `0 / 0 = NaN`; `NaN` and infinities propagate
to NaN as well. -/
theorem mul_zero_div_zero_nan (xv : F32V) :
    F32V.div (F32V.mul xv (F32V.fin 0)) (F32V.fin 0) = F32V.nan := by
  cases xv <;> simp [F32V.mul, F32V.div]

/-- C10: training-mode dropout with `dropout_p = 1` divides by the zero
scaling denominator `1 - p`: for every input array (finite values, NaNs or
infinities alike) the function returns an array of NaN values — it raises no
error and performs no validation of the probability. -/
theorem C10_dropout_one_nan (seedFn : Nat → Nat) (drawU : Nat → Rat × Nat)
    (x : List (List F32V)) (seed : Option Nat) (g : Nat)
    (hu : ∀ g', 0 ≤ (drawU g').1) :
    ∀ row ∈ (apply_dropout_fp seedFn drawU x 1 true seed g).1,
      ∀ v ∈ row, v = F32V.nan := by
  intro row hrow v hv
  unfold apply_dropout_fp at hrow
  rw [if_pos rfl] at hrow
  obtain ⟨xrow, _, mrow, hmrow, rfl⟩ := mem_zipWith hrow
  obtain ⟨xv, _, mv, hmv, rfl⟩ := mem_zipWith hv
  have hmv0 : mv = 0 := maskMat_one_zero hu _ _ mrow hmrow mv hmv
  subst hmv0
  have h10 : (1 : Rat) - 1 = 0 := by norm_num
  rw [h10]
  exact mul_zero_div_zero_nan xv

/-- Witness for C10: a concrete 1×2 input, one finite and one infinite
entry, with a concrete uniform source; the first entry of the result is
NaN. -/
theorem C10_dropout_one_nan_witness :
    (((apply_dropout_fp id (fun g => (1 / 2, g + 1))
        [[F32V.fin 3, F32V.pinf]] 1 true none 0).1.getD 0 []).getD 0
      F32V.nan) = F32V.nan := by
  have h := C10_dropout_one_nan id (fun g => (1 / 2, g + 1))
    [[F32V.fin 3, F32V.pinf]] none 0 (fun g2 => by norm_num)
  by_cases h0 : 0 < (apply_dropout_fp id (fun g => (1 / 2, g + 1))
      [[F32V.fin 3, F32V.pinf]] 1 true none 0).1.length
  · have hrow := getD_mem ([] : List F32V) h0
    by_cases h1 : 0 < ((apply_dropout_fp id (fun g => (1 / 2, g + 1))
        [[F32V.fin 3, F32V.pinf]] 1 true none 0).1.getD 0 []).length
    · exact h _ hrow _ (getD_mem F32V.nan h1)
    · have hempty : ((apply_dropout_fp id (fun g => (1 / 2, g + 1))
          [[F32V.fin 3, F32V.pinf]] 1 true none 0).1.getD 0 []).length ≤ 0 := by
        omega
      rw [List.getD_eq_default _ _ hempty]
  · have hempty2 : (apply_dropout_fp id (fun g => (1 / 2, g + 1))
        [[F32V.fin 3, F32V.pinf]] 1 true none 0).1.length ≤ 0 := by omega
    rw [List.getD_eq_default _ _ hempty2]
    rfl

/-! ## Matrix generator and pipeline orchestrator
(`generate_pipeline_test_vectors`)

Only the computational core is embedded: the function builds `A`, `B`,
`C = A × B`, `activated`, `pooled` and `final` and returns them as the
result record.  Console printing, directory creation and the four file
writes are I/O collaborators outside the verified core; the `numpy` random
draws are abstract draw functions threading an explicit generator state,
with `np.random.seed(seed)` replacing the state by `seedFn seed`.  The
float32 casts (`astype`) round values deterministically and are not modelled
by the rational matrices. -/

/-- Python `np.eye(n)`. -/
def eye (n : Nat) : Mat :=
  (List.range n).map (fun i =>
    (List.range n).map (fun j => if i = j then (1 : Rat) else 0))

/-- Python `np.ones((n, n))`. -/
def onesMat (n : Nat) : Mat :=
  List.replicate n (List.replicate n (1 : Rat))

/-- A row of `k` random draws, threading the generator state (numpy fills
`size=(n, n)` row-major from consecutive draws). -/
def drawRow (draw : Nat → Rat × Nat) : Nat → Nat → List Rat × Nat
  | 0, g => ([], g)
  | k + 1, g =>
    let d := draw g
    let rest := drawRow draw k d.2
    (d.1 :: rest.1, rest.2)

/-- A `rows × cols` matrix of random draws, threading the generator state. -/
def drawMat (draw : Nat → Rat × Nat) (cols : Nat) : Nat → Nat → Mat × Nat
  | 0, g => ([], g)
  | r + 1, g =>
    let row := drawRow draw cols g
    let rest := drawMat draw cols r row.2
    (row.1 :: rest.1, rest.2)

/-- Python `np.matmul(A, B)`: standard dense matrix multiplication,
`C[i][j] = Σ_k A[i][k] * B[k][j]`. -/
def matmul (A B : Mat) : Mat :=
  A.map (fun arow =>
    (List.range (width B)).map (fun j =>
      (List.range arow.length).foldl
        (fun acc k => acc + arow.getD k 0 * (B.getD k []).getD j 0) 0))

/-- The keyword arguments of `generate_pipeline_test_vectors` (minus the
output directory, which only feeds the out-of-scope file writes). -/
structure PipelineConfig where
  n : Nat
  activation_type : String
  pool_h : Nat
  pool_w : Nat
  pool_padding : Nat
  dropout_p : Rat
  seed : Option Nat
  matrix_type : String
  value_range : Rat × Rat
deriving DecidableEq

/-- The dictionary returned by `generate_pipeline_test_vectors`. -/
structure PipelineResult where
  A : Mat
  B : Mat
  matmul : Mat
  activated : Mat
  pooled : Mat
  final : Mat
deriving DecidableEq

/-- Step 1 of the pipeline: generate the two input matrices.  The dispatch
mirrors the source: `identity`, `ones`, `small_int`, and any other tag means
`random`.  `small_int` draws integers in `[-3, 3]` (`np.random.randint(-3,
4)`) cast to float; `random` draws uniforms in the configured range.  Both
random kinds draw A fully, then B, from the same threaded state — no
reseeding between the two. -/
def generateMatrices (drawU : Rat → Rat → Nat → Rat × Nat)
    (drawI : Int → Int → Nat → Int × Nat) (cfg : PipelineConfig) (g : Nat) :
    Mat × Mat × Nat :=
  if cfg.matrix_type = "identity" then (eye cfg.n, eye cfg.n, g)
  else if cfg.matrix_type = "ones" then (onesMat cfg.n, onesMat cfg.n, g)
  else if cfg.matrix_type = "small_int" then
    let dI := fun g' => (((drawI (-3) 4 g').1 : Rat), (drawI (-3) 4 g').2)
    let A := drawMat dI cfg.n cfg.n g
    let B := drawMat dI cfg.n cfg.n A.2
    (A.1, B.1, B.2)
  else
    let dU := drawU cfg.value_range.1 cfg.value_range.2
    let A := drawMat dU cfg.n cfg.n g
    let B := drawMat dU cfg.n cfg.n A.2
    (A.1, B.1, B.2)

/-- Python `if seed is not None: np.random.seed(seed)`: a supplied seed
replaces the ambient generator state. -/
def seedState (seedFn : Nat → Nat) (seed : Option Nat) (g0 : Nat) : Nat :=
  match seed with
  | some s => seedFn s
  | none => g0

/-- Python `generate_pipeline_test_vectors`: seed the generator when a seed
is supplied, generate `A` and `B`, multiply, activate, extract the fixed
top-left 5×5 sub-region (`in_rows, in_cols = 5, 5` hard-coded), max-pool it
with the configured window and padding (default strides), apply dropout in
inference mode, and return all six arrays.  A failure in the max-pool stage
aborts the run with its error. -/
def generate_pipeline_test_vectors (seedFn : Nat → Nat)
    (drawU : Rat → Rat → Nat → Rat × Nat) (drawI : Int → Int → Nat → Int × Nat)
    (drawB : Nat → Rat × Nat) (sigmoidFn tanhFn : Rat → Rat)
    (cfg : PipelineConfig) (g0 : Nat) : Except String PipelineResult :=
  let g1 := seedState seedFn cfg.seed g0
  let gen := generateMatrices drawU drawI cfg g1
  let A := gen.1
  let B := gen.2.1
  let g2 := gen.2.2
  let C := matmul A B
  let activated := apply_activation sigmoidFn tanhFn C cfg.activation_type
  let maxpool_input := (activated.take 5).map (fun r => r.take 5)
  match apply_maxpool_2d maxpool_input cfg.pool_h cfg.pool_w none none
      cfg.pool_padding with
  | .error e => .error e
  | .ok pooled =>
    let dropped := apply_dropout seedFn drawB pooled cfg.dropout_p false none g2
    .ok { A := A, B := B, matmul := C, activated := activated,
          pooled := pooled, final := dropped.1 }

/-- Inversion of a successful pipeline run: the six returned arrays are
related exactly as the stage chain dictates. -/
theorem generate_ok_inv {seedFn : Nat → Nat} {drawU : Rat → Rat → Nat → Rat × Nat}
    {drawI : Int → Int → Nat → Int × Nat} {drawB : Nat → Rat × Nat}
    {sigmoidFn tanhFn : Rat → Rat} {cfg : PipelineConfig} {g0 : Nat}
    {res : PipelineResult}
    (hok : generate_pipeline_test_vectors seedFn drawU drawI drawB sigmoidFn
      tanhFn cfg g0 = .ok res) :
    res.A = (generateMatrices drawU drawI cfg (seedState seedFn cfg.seed g0)).1 ∧
      res.B = (generateMatrices drawU drawI cfg (seedState seedFn cfg.seed g0)).2.1 ∧
      res.matmul = matmul res.A res.B ∧
      res.activated = apply_activation sigmoidFn tanhFn res.matmul
        cfg.activation_type ∧
      apply_maxpool_2d ((res.activated.take 5).map (fun r => r.take 5))
        cfg.pool_h cfg.pool_w none none cfg.pool_padding = .ok res.pooled ∧
      res.final = res.pooled := by
  simp only [generate_pipeline_test_vectors] at hok
  cases hmp : apply_maxpool_2d
      (((apply_activation sigmoidFn tanhFn
        (matmul (generateMatrices drawU drawI cfg (seedState seedFn cfg.seed g0)).1
          (generateMatrices drawU drawI cfg (seedState seedFn cfg.seed g0)).2.1)
        cfg.activation_type).take 5).map (fun r => r.take 5))
      cfg.pool_h cfg.pool_w none none cfg.pool_padding with
  | error e =>
    rw [hmp] at hok
    exact absurd hok (by simp)
  | ok pooled =>
    rw [hmp] at hok
    simp only [apply_dropout, Bool.false_eq_true, if_false, Except.ok.injEq] at hok
    subst hok
    exact ⟨rfl, rfl, rfl, rfl, hmp, rfl⟩

/-- C7: dropout inference-mode identity.  `apply_dropout` with
`training_mode = false` returns its input (and the generator state)
unchanged for every input and every dropout probability; consequently in
every successful pipeline run `final` equals `pooled` exactly. -/
theorem C7_dropout_inference_identity :
    (∀ (seedFn : Nat → Nat) (drawB : Nat → Rat × Nat) (x : Mat) (p : Rat)
        (seed : Option Nat) (g : Nat),
      apply_dropout seedFn drawB x p false seed g = (x, g)) ∧
    ∀ (seedFn : Nat → Nat) (drawU : Rat → Rat → Nat → Rat × Nat)
      (drawI : Int → Int → Nat → Int × Nat) (drawB : Nat → Rat × Nat)
      (sigmoidFn tanhFn : Rat → Rat) (cfg : PipelineConfig) (g0 : Nat)
      (res : PipelineResult),
      generate_pipeline_test_vectors seedFn drawU drawI drawB sigmoidFn tanhFn
          cfg g0 = .ok res →
      res.final = res.pooled := by
  constructor
  · intro seedFn drawB x p seed g
    simp [apply_dropout]
  · intro seedFn drawU drawI drawB sigmoidFn tanhFn cfg g0 res hok
    exact (generate_ok_inv hok).2.2.2.2.2

/-- Witness for C7: a concrete successful pipeline run (0×0 all-ones
matrices, relu, 2×2 pool with padding 1, seed 42 — the pooled value is the
maximum over pure padding) has `final = pooled`. -/
theorem C7_dropout_inference_identity_witness :
    ({ A := [], B := [], matmul := [], activated := [],
       pooled := [[0]], final := [[0]] } : PipelineResult).final =
      ({ A := [], B := [], matmul := [], activated := [],
         pooled := [[0]], final := [[0]] } : PipelineResult).pooled :=
  C7_dropout_inference_identity.2 id (fun _ _ g => (0, g)) (fun _ _ g => (0, g))
    (fun g => (0, g)) id id
    { n := 0, activation_type := "relu", pool_h := 2, pool_w := 2,
      pool_padding := 1, dropout_p := 1 / 2, seed := some 42,
      matrix_type := "ones", value_range := (-1, 1) } 0
    { A := [], B := [], matmul := [], activated := [],
      pooled := [[0]], final := [[0]] } (by rfl)

theorem drawRow_length (draw : Nat → Rat × Nat) :
    ∀ k g, (drawRow draw k g).1.length = k := by
  intro k
  induction k with
  | zero => intro g; rfl
  | succ n ih => intro g; simp only [drawRow, List.length_cons, ih]

theorem drawMat_shape (draw : Nat → Rat × Nat) (cols : Nat) :
    ∀ r g, (drawMat draw cols r g).1.length = r ∧
      ∀ row ∈ (drawMat draw cols r g).1, row.length = cols := by
  intro r
  induction r with
  | zero => intro g; exact ⟨rfl, by intro row h; simp [drawMat] at h⟩
  | succ n ih =>
    intro g
    constructor
    · simp only [drawMat, List.length_cons, (ih _).1]
    · intro row hrow
      simp only [drawMat] at hrow
      rcases List.mem_cons.mp hrow with rfl | hrow'
      · exact drawRow_length draw cols g
      · exact (ih _).2 row hrow'

theorem eye_shape (n : Nat) : (eye n).length = n ∧
    ∀ row ∈ eye n, row.length = n := by
  constructor
  · simp [eye]
  · intro row hrow
    unfold eye at hrow
    obtain ⟨i, _, rfl⟩ := List.mem_map.mp hrow
    simp

theorem onesMat_shape (n : Nat) : (onesMat n).length = n ∧
    ∀ row ∈ onesMat n, row.length = n := by
  constructor
  · simp [onesMat]
  · intro row hrow
    unfold onesMat at hrow
    rw [List.eq_of_mem_replicate hrow]
    simp

theorem generateMatrices_shape (drawU : Rat → Rat → Nat → Rat × Nat)
    (drawI : Int → Int → Nat → Int × Nat) (cfg : PipelineConfig) (g : Nat) :
    ((generateMatrices drawU drawI cfg g).1.length = cfg.n ∧
      ∀ row ∈ (generateMatrices drawU drawI cfg g).1, row.length = cfg.n) ∧
    (generateMatrices drawU drawI cfg g).2.1.length = cfg.n ∧
      ∀ row ∈ (generateMatrices drawU drawI cfg g).2.1, row.length = cfg.n := by
  unfold generateMatrices
  split_ifs
  · exact ⟨eye_shape cfg.n, eye_shape cfg.n⟩
  · exact ⟨onesMat_shape cfg.n, onesMat_shape cfg.n⟩
  · exact ⟨drawMat_shape _ _ _ _, drawMat_shape _ _ _ _⟩
  · exact ⟨drawMat_shape _ _ _ _, drawMat_shape _ _ _ _⟩

theorem width_eq_of {m : Mat} {n : Nat} (hlen : m.length = n)
    (hrows : ∀ row ∈ m, row.length = n) : width m = n := by
  cases m with
  | nil => simpa [width] using hlen
  | cons r rs => exact hrows r (List.mem_cons_self r rs)

theorem matmul_shape (A B : Mat) : (matmul A B).length = A.length ∧
    ∀ row ∈ matmul A B, row.length = width B := by
  constructor
  · simp [matmul]
  · intro row hrow
    unfold matmul at hrow
    obtain ⟨arow, _, rfl⟩ := List.mem_map.mp hrow
    simp

theorem apply_activation_rows {sigmoidFn tanhFn : Rat → Rat} {x : Mat}
    {n : Nat} (tag : String) (hrows : ∀ row ∈ x, row.length = n) :
    (apply_activation sigmoidFn tanhFn x tag).length = x.length ∧
    ∀ row ∈ apply_activation sigmoidFn tanhFn x tag, row.length = n := by
  unfold apply_activation
  split_ifs
  case pos =>
    refine ⟨List.length_map x _, ?_⟩
    intro row hrow
    obtain ⟨r, hr, rfl⟩ := List.mem_map.mp hrow
    rw [List.length_map]
    exact hrows r hr
  case pos =>
    refine ⟨List.length_map x _, ?_⟩
    intro row hrow
    obtain ⟨r, hr, rfl⟩ := List.mem_map.mp hrow
    rw [List.length_map]
    exact hrows r hr
  case pos =>
    refine ⟨List.length_map x _, ?_⟩
    intro row hrow
    obtain ⟨r, hr, rfl⟩ := List.mem_map.mp hrow
    rw [List.length_map]
    exact hrows r hr
  case pos => exact ⟨rfl, hrows⟩
  case neg => exact ⟨rfl, hrows⟩

/-- C8: fixed sub-region extraction.  In every successful pipeline run, the
MaxPool input is the top-left 5×5 sub-region of `activated` (the constant 5
is hard-coded independently of `N`), and the extracted region has dimensions
`min N 5 × min N 5` — for `N < 5` it is smaller than 5×5 with no padding
added by the extraction itself (padding happens only inside the MaxPool
stage). -/
theorem C8_fixed_subregion (seedFn : Nat → Nat)
    (drawU : Rat → Rat → Nat → Rat × Nat) (drawI : Int → Int → Nat → Int × Nat)
    (drawB : Nat → Rat × Nat) (sigmoidFn tanhFn : Rat → Rat)
    (cfg : PipelineConfig) (g0 : Nat) (res : PipelineResult)
    (hok : generate_pipeline_test_vectors seedFn drawU drawI drawB sigmoidFn
      tanhFn cfg g0 = .ok res) :
    apply_maxpool_2d ((res.activated.take 5).map (fun r => r.take 5))
        cfg.pool_h cfg.pool_w none none cfg.pool_padding = .ok res.pooled ∧
      ((res.activated.take 5).map (fun r => r.take 5)).length = min cfg.n 5 ∧
      ∀ row ∈ (res.activated.take 5).map (fun r => r.take 5),
        row.length = min cfg.n 5 := by
  obtain ⟨hA, hB, hC, hAct, hPool, _⟩ := generate_ok_inv hok
  obtain ⟨⟨hAlen, hArows⟩, hBlen, hBrows⟩ :=
    generateMatrices_shape drawU drawI cfg (seedState seedFn cfg.seed g0)
  have hwB : width res.B = cfg.n := by
    rw [hB]
    exact width_eq_of hBlen hBrows
  have hCrows : ∀ row ∈ res.matmul, row.length = cfg.n := by
    rw [hC]
    intro row hrow
    rw [(matmul_shape res.A res.B).2 row hrow, hwB]
  have hActShape := @apply_activation_rows sigmoidFn tanhFn res.matmul cfg.n
    cfg.activation_type hCrows
  have hActLen : res.activated.length = cfg.n := by
    rw [hAct, hActShape.1, hC, (matmul_shape res.A res.B).1, hA, hAlen]
  have hActRows : ∀ row ∈ res.activated, row.length = cfg.n := by
    rw [hAct]
    exact hActShape.2
  refine ⟨hPool, ?_, ?_⟩
  · rw [List.length_map, List.length_take, hActLen]
    omega
  · intro row hrow
    obtain ⟨r, hr, rfl⟩ := List.mem_map.mp hrow
    have hrmem : r ∈ res.activated := List.mem_of_mem_take hr
    rw [List.length_take, hActRows r hrmem]
    omega

/-- Witness for C8, at a concrete 0×0 run (`N = 0 < 5`): the extracted
region is empty (`min 0 5 = 0`) and pooling it (with padding 1) gives the
pooled array of the run. -/
theorem C8_fixed_subregion_witness :
    apply_maxpool_2d ((([] : Mat).take 5).map (fun r => r.take 5))
        2 2 none none 1 = .ok [[0]] ∧
      ((([] : Mat).take 5).map (fun r => r.take 5)).length = min 0 5 ∧
      ∀ row ∈ (([] : Mat).take 5).map (fun r => r.take 5),
        row.length = min 0 5 :=
  C8_fixed_subregion id (fun _ _ g => (0, g)) (fun _ _ g => (0, g))
    (fun g => (0, g)) id id
    { n := 0, activation_type := "relu", pool_h := 2, pool_w := 2,
      pool_padding := 1, dropout_p := 1 / 2, seed := some 42,
      matrix_type := "ones", value_range := (-1, 1) } 0
    { A := [], B := [], matmul := [], activated := [],
      pooled := [[0]], final := [[0]] } (by rfl)

/-- C9: end-to-end determinism.  When the configuration carries a seed, the
pipeline result is a function of the configuration alone: two invocations
with identical seed and configuration but arbitrary (different) ambient
generator states return identical results, because seeding overwrites the
ambient state before any draw. -/
theorem C9_pipeline_determinism (seedFn : Nat → Nat)
    (drawU : Rat → Rat → Nat → Rat × Nat) (drawI : Int → Int → Nat → Int × Nat)
    (drawB : Nat → Rat × Nat) (sigmoidFn tanhFn : Rat → Rat)
    (cfg : PipelineConfig) (sd : Nat) (g0 g0' : Nat)
    (hseed : cfg.seed = some sd) :
    generate_pipeline_test_vectors seedFn drawU drawI drawB sigmoidFn tanhFn
        cfg g0 =
      generate_pipeline_test_vectors seedFn drawU drawI drawB sigmoidFn tanhFn
        cfg g0' := by
  unfold generate_pipeline_test_vectors
  rw [hseed]
  rfl

/-- Witness for C9: two concrete runs with seed 42 and ambient states 0 and
999 coincide. -/
theorem C9_pipeline_determinism_witness :
    generate_pipeline_test_vectors id (fun _ _ g => (0, g)) (fun _ _ g => (0, g))
        (fun g => (0, g)) id id
        { n := 2, activation_type := "relu", pool_h := 2, pool_w := 2,
          pool_padding := 1, dropout_p := 1 / 2, seed := some 42,
          matrix_type := "identity", value_range := (-1, 1) } 0 =
      generate_pipeline_test_vectors id (fun _ _ g => (0, g)) (fun _ _ g => (0, g))
        (fun g => (0, g)) id id
        { n := 2, activation_type := "relu", pool_h := 2, pool_w := 2,
          pool_padding := 1, dropout_p := 1 / 2, seed := some 42,
          matrix_type := "identity", value_range := (-1, 1) } 999 :=
  C9_pipeline_determinism id (fun _ _ g => (0, g)) (fun _ _ g => (0, g))
    (fun g => (0, g)) id id
    { n := 2, activation_type := "relu", pool_h := 2, pool_w := 2,
      pool_padding := 1, dropout_p := 1 / 2, seed := some 42,
      matrix_type := "identity", value_range := (-1, 1) } 42 0 999 (by rfl)

end Sienna
